import Mathlib

/-!
# Verification of the DiOS generic hashmap (`src/include/libk/hashmap.h`)

Shallow embedding of the `int`-to-`int` instantiation produced by
`GENERATE_HASHMAP(int, int)` in `src/include/libk/hashmap.h`, together with the
capability functions from `src/include/libk/types.h`
(`GENERATE_FNS_FOR_PRIMITIVE(int)`).

Machine integers: the struct fields `size` and `capacity` are `uint32_t`; they
are modelled as `Nat` with the arithmetic the source performs taken modulo
`2^32` where the source performs 32-bit arithmetic (`hashmap->size++`).
The C growth condition `size > capacity * LOAD_FACTOR` with
`LOAD_FACTOR = 0.75` converts both `uint32_t` operands to `double`; for values
below `2^32` both conversions and the product `capacity * 0.75` are exact in
IEEE double (all quantities are below `2^53`), so the comparison is exactly
the rational comparison `size > capacity * 3 / 4`, i.e. `4 * size > 3 * capacity`
over the integers, which is how it is embedded here.

The bucket vectors (`GENERATE_VECTOR`, from `libk/vector.h`) and the functions
`new_hashmap` / `hashmap_resize` (declared in `hashmap.h`, defined elsewhere)
are not part of the sources under verification; where needed they are modelled
from the specification, and each such definition is marked
`Modelled from the spec`.
-/

/-- uint32 modulus: `size` and `capacity` are `uint32_t` fields. -/
def U32 : Nat := 4294967296

/-- From `types.h`, `GENERATE_FNS_FOR_PRIMITIVE(int)`:
`static uint32_t int_hash(int* i) { return *i; }` — the C `int` value is
converted to `uint32_t`, i.e. reduced modulo `2^32` to a non-negative value. -/
def int_hash (k : Int) : Nat := (k % (U32 : Int)).toNat

/-- From `types.h`: `static bool int_equals(int* i1, int* i2) { return *i1 == *i2; }`. -/
def int_equals (a b : Int) : Bool := a == b

/-- From `types.h`: `static void copy_int(int* i, int* output) { *output = *i; }` —
a plain value copy. -/
def copy_int (k : Int) : Int := k

/-- From `hashmap.h`, `GENERATE_HASHMAP(int, int)`: a single entry,
`struct int_to_int_entry { int key; int value; }`. -/
structure int_to_int_entry where
  key : Int
  value : Int
deriving DecidableEq, Repr

/-- A bucket array: each slot is `NULL` (`none`) or a vector of entries
(`some` list). The vector collaborator stores entries by value in insertion
order, so a bucket vector is embedded as a `List`. -/
abbrev Buckets : Type := List (Option (List int_to_int_entry))

/-- From `hashmap.h`, `GENERATE_HASHMAP(int, int)`:
`struct int_to_int_hashmap { uint32_t size; uint32_t capacity; size_t entry_size; ... buckets; }`
(the function pointers `add`/`get`/`delete` always point to the generated
functions embedded below, and `entry_size` is the constant
`sizeof(int_to_int_entry)`, so neither is part of the state). -/
structure int_to_int_hashmap where
  size : Nat
  capacity : Nat
  buckets : Buckets
deriving DecidableEq

/-- The bucket-selection and store steps shared textually by `add` (lines:
compute `hash % capacity`, allocate a fresh empty vector if the bucket is
`NULL`, then `push` the entry at the end of the bucket vector). Factored out
here because the spec's Growth Rehash re-places entries by the same steps. -/
def placeEntry (bs : Buckets) (cap : Nat) (e : int_to_int_entry) : Buckets :=
  let b := int_hash e.key % cap
  List.set bs b (some ((List.getD bs b none).getD [] ++ [e]))

/-- All entries of the table, buckets in index order, each bucket's entries in
insertion order (absent buckets contribute nothing). -/
def allEntries (m : int_to_int_hashmap) : List int_to_int_entry :=
  m.buckets.flatMap (fun o => o.getD [])

/-- Modelled from the spec: `hashmap_resize` is declared in `hashmap.h` but its
definition is not under `src/`. Per the spec's Growth Rehash: the capacity is
increased (the conventional doubling, `capacity *= 2`), every existing entry is
re-hashed against the new capacity and re-placed into a fresh all-absent bucket
array, the old bucket sequences are released, and `size` is preserved exactly. -/
def hashmap_resize (m : int_to_int_hashmap) : int_to_int_hashmap :=
  { size := m.size
    capacity := 2 * m.capacity
    buckets := (allEntries m).foldl (fun bs e => placeEntry bs (2 * m.capacity) e)
      (List.replicate (2 * m.capacity) (none : Option (List int_to_int_entry))) }

/-- Modelled from the spec: `new_hashmap` is declared in `hashmap.h` but its
definition is not under `src/`. Per the spec's `new(initial_capacity = 127)`:
an all-absent (`NULL`) bucket array of the given capacity and zero size; the
default capacity is `DEFAULT_BUCKET_SIZE = 127` from `hashmap.h`. -/
def new_int_to_int_hashmap (cap : Nat) : int_to_int_hashmap :=
  { size := 0, capacity := cap, buckets := List.replicate cap none }

/-- From `hashmap.h`: `add_int_to_int_hashmap`. If
`size > capacity * LOAD_FACTOR` (exactly `4 * size > 3 * capacity`, see the
file header), call `hashmap_resize` first; then compute
`bucket = int_hash(&key) % capacity`, allocate an empty vector if
`buckets[bucket] == NULL`, build the entry from `copy_int(key)` /
`copy_int(value)`, `push` it, and do `hashmap->size++` (32-bit increment). -/
def add_int_to_int_hashmap (m : int_to_int_hashmap) (key value : Int) :
    int_to_int_hashmap :=
  let m1 := if 4 * m.size > 3 * m.capacity then hashmap_resize m else m
  { size := (m1.size + 1) % U32
    capacity := m1.capacity
    buckets := placeEntry m1.buckets m1.capacity
      { key := copy_int key, value := copy_int value } }

/-- The scan loop of `get_int_to_int_hashmap`:
`for i in [0, bucket->size)`, read entry `i` (the vector's bounds-checked read
always succeeds for `i < size`), and on the first entry with
`int_equals(*key, entry.key)` write `entry.value` to the output and return
`true`. Embedded as: the value of the first matching entry, if any. -/
def bucket_find (l : List int_to_int_entry) (key : Int) : Option Int :=
  match l with
  | [] => none
  | e :: rest => if int_equals key e.key then some e.value else bucket_find rest key

/-- From `hashmap.h`: `get_int_to_int_hashmap(hashmap, key, output)`. Reads
`buckets[int_hash(key) % capacity]`; `NULL` bucket means not found; otherwise
the bucket is scanned (`bucket_find`). The result triple is
(the table after the call, the returned `bool`, the output location after the
call, given its prior contents `output`): the function writes nothing to the
table, and writes the output location only on a match. -/
def get_int_to_int_hashmap (m : int_to_int_hashmap) (key output : Int) :
    int_to_int_hashmap × Bool × Int :=
  match List.getD m.buckets (int_hash key % m.capacity) none with
  | none => (m, false, output)
  | some l =>
    match bucket_find l key with
    | some v => (m, true, v)
    | none => (m, false, output)

/-- A teardown event: one invocation of a capability destroy function or one
storage release, in the order `delete_int_to_int_hashmap` emits them. -/
inductive teardown_event where
  | destroyKey (k : Int)
  | destroyValue (v : Int)
  | freeSequenceStorage
  | freeBucketArray
  | freeTable
deriving DecidableEq, Repr

/-- From `hashmap.h`: `delete_int_to_int_entry(e)` calls `delete_int(e->key)`
then `delete_int(e->value)` — one key-destroy and one value-destroy event.
(This generated function is never called by any other generated function.) -/
def delete_int_to_int_entry_events (e : int_to_int_entry) : List teardown_event :=
  [teardown_event.destroyKey e.key, teardown_event.destroyValue e.value]

/-- Modelled from the spec: the bucket vector's generated delete
(`GENERATE_VECTOR`, `libk/vector.h`, not under `src/`) — per spec §4.2,
`destroy(seq)` releases the sequence's storage only and does not itself call
entry destroy. The `TODO` in `hashmap.h` confirms the vector does not delete
its contents. -/
def delete_int_to_int_entry_vector_events (_l : List int_to_int_entry) :
    List teardown_event :=
  [teardown_event.freeSequenceStorage]

/-- From `hashmap.h`: `delete_int_to_int_hashmap(hashmap)` — for every
`i < capacity` with `buckets[i] != NULL`, call `delete(buckets[i])` (the
bucket vector's delete), then `kfree(hashmap->buckets)` and `kfree(hashmap)`.
It never calls `delete_int_to_int_entry` (nor `delete_int`) on any entry. -/
def delete_int_to_int_hashmap_events (m : int_to_int_hashmap) :
    List teardown_event :=
  (m.buckets.filterMap id).flatMap delete_int_to_int_entry_vector_events ++
    [teardown_event.freeBucketArray, teardown_event.freeTable]

/-- Fold a list of `add` calls over a table: the table after a sequence of
`add(k, v)` calls. -/
def addAll (m : int_to_int_hashmap) (ps : List (Int × Int)) : int_to_int_hashmap :=
  ps.foldl (fun acc p => add_int_to_int_hashmap acc p.1 p.2) m

/-- The value paired with the first element of `ps` whose key equals `k`
(the reference lookup against the insertion history). -/
def firstVal (ps : List (Int × Int)) (k : Int) : Option Int :=
  (ps.find? (fun p => int_equals k p.1)).map (fun p => p.2)

/-- Sum of the entry counts of all present buckets (absent buckets count 0). -/
def totalEntries (m : int_to_int_hashmap) : Nat :=
  (m.buckets.map (fun o => (o.getD []).length)).sum

/-- Structural well-formedness established by construction: positive capacity
(`InvalidCapacity` is rejected at `new`) and a bucket array of exactly
`capacity` slots. -/
def wfStruct (m : int_to_int_hashmap) : Prop :=
  0 < m.capacity ∧ m.buckets.length = m.capacity

instance (m : int_to_int_hashmap) : Decidable (wfStruct m) := by
  unfold wfStruct
  infer_instance

/-- The bucket-select plus scan portion of `get_int_to_int_hashmap`, on a raw
bucket array: the value `get` hands back, when it finds one. -/
def lookupB (bs : Buckets) (cap : Nat) (k : Int) : Option Int :=
  match List.getD bs (int_hash k % cap) none with
  | none => none
  | some l => bucket_find l k

/-- Placement invariant of the bucket array: every entry of every present
bucket sits at the index its key hashes to modulo `cap`. -/
def WfB (bs : Buckets) (cap : Nat) : Prop :=
  ∀ b l, List.getD bs b none = some l → ∀ e ∈ l, int_hash e.key % cap = b

/-! ## Basic lemmas about the capability functions and list access -/

lemma int_equals_refl (k : Int) : int_equals k k = true := by
  simp [int_equals]

lemma eq_of_int_equals {a b : Int} (h : int_equals a b = true) : a = b := by
  simpa [int_equals] using h

lemma int_hash_congr {a b : Int} (h : int_equals a b = true) : int_hash a = int_hash b := by
  rw [eq_of_int_equals h]

lemma getD_eq_getElem? (l : Buckets) (i : Nat) :
    List.getD l i none = (l[i]?).getD none := by
  simp [List.getD]

lemma getD_set_self (bs : Buckets) (b : Nat) (x : Option (List int_to_int_entry))
    (h : b < bs.length) : List.getD (bs.set b x) b none = x := by
  rw [getD_eq_getElem?, List.getElem?_set_eq_of_lt x h]
  rfl

lemma getD_set_ne (bs : Buckets) (b b' : Nat) (x : Option (List int_to_int_entry))
    (h : b ≠ b') : List.getD (bs.set b x) b' none = List.getD bs b' none := by
  rw [getD_eq_getElem?, List.getElem?_set_ne h, getD_eq_getElem?]

lemma getD_replicate (n b : Nat) :
    List.getD (List.replicate n (none : Option (List int_to_int_entry))) b none = none := by
  rw [getD_eq_getElem?]
  rcases Nat.lt_or_ge b n with h | h
  · simp [List.getElem?_replicate, h]
  · rw [List.getElem?_eq_none (by simpa using h)]
    rfl

/-! ## Lemmas about `bucket_find` -/

lemma bucket_find_append (l1 l2 : List int_to_int_entry) (k : Int) :
    bucket_find (l1 ++ l2) k = (bucket_find l1 k).or (bucket_find l2 k) := by
  induction l1 with
  | nil => simp [bucket_find]
  | cons e rest ih =>
    simp only [List.cons_append, bucket_find]
    by_cases h : int_equals k e.key
    · simp [h]
    · simp [h, ih]

lemma bucket_find_singleton (e : int_to_int_entry) (k : Int) :
    bucket_find [e] k = if int_equals k e.key then some e.value else none := by
  simp [bucket_find]

lemma bucket_find_eq_none {l : List int_to_int_entry} {k : Int}
    (h : ∀ e ∈ l, int_equals k e.key = false) : bucket_find l k = none := by
  induction l with
  | nil => rfl
  | cons e rest ih =>
    have he := h e (by simp)
    simp only [bucket_find, he]
    exact ih fun e1 h1 => h e1 (by simp [h1])

/-! ## Lemmas about `placeEntry` -/

lemma length_placeEntry (bs : Buckets) (cap : Nat) (e : int_to_int_entry) :
    (placeEntry bs cap e).length = bs.length := by
  simp [placeEntry]

lemma lookupB_eq_bucket_find_getD (bs : Buckets) (cap : Nat) (k : Int) :
    lookupB bs cap k = bucket_find ((List.getD bs (int_hash k % cap) none).getD []) k := by
  unfold lookupB
  cases h : List.getD bs (int_hash k % cap) none with
  | none => simp [bucket_find]
  | some l => simp

lemma lookupB_placeEntry (bs : Buckets) (cap : Nat) (e : int_to_int_entry) (k : Int)
    (hlen : bs.length = cap) (hcap : 0 < cap) :
    lookupB (placeEntry bs cap e) cap k =
      (lookupB bs cap k).or (if int_equals k e.key then some e.value else none) := by
  have hbe : int_hash e.key % cap < bs.length := by
    rw [hlen]; exact Nat.mod_lt _ hcap
  by_cases hb : int_hash k % cap = int_hash e.key % cap
  · rw [lookupB_eq_bucket_find_getD, lookupB_eq_bucket_find_getD, hb]
    rw [show placeEntry bs cap e =
        List.set bs (int_hash e.key % cap)
          (some ((List.getD bs (int_hash e.key % cap) none).getD [] ++ [e])) from rfl]
    rw [getD_set_self _ _ _ hbe]
    simp only [Option.getD_some]
    rw [bucket_find_append, bucket_find_singleton]
  · have hne : int_equals k e.key = false := by
      by_contra hc
      have : int_equals k e.key = true := by
        revert hc; cases int_equals k e.key <;> simp
      exact hb (by rw [int_hash_congr this])
    rw [hne]
    simp only [Bool.false_eq_true, if_false, Option.or_none]
    rw [lookupB_eq_bucket_find_getD, lookupB_eq_bucket_find_getD]
    rw [show placeEntry bs cap e =
        List.set bs (int_hash e.key % cap)
          (some ((List.getD bs (int_hash e.key % cap) none).getD [] ++ [e])) from rfl]
    rw [getD_set_ne _ _ _ _ (fun hh => hb hh.symm)]

lemma WfB_placeEntry {bs : Buckets} {cap : Nat} (e : int_to_int_entry)
    (hwf : WfB bs cap) (hlen : bs.length = cap) (hcap : 0 < cap) :
    WfB (placeEntry bs cap e) cap := by
  have hbe : int_hash e.key % cap < bs.length := by
    rw [hlen]; exact Nat.mod_lt _ hcap
  intro b l hl e1 he1
  by_cases hb : int_hash e.key % cap = b
  · subst hb
    rw [show placeEntry bs cap e =
        List.set bs (int_hash e.key % cap)
          (some ((List.getD bs (int_hash e.key % cap) none).getD [] ++ [e])) from rfl] at hl
    rw [getD_set_self _ _ _ hbe] at hl
    cases hl
    rcases List.mem_append.mp he1 with hmem | hmem
    · cases hold : List.getD bs (int_hash e.key % cap) none with
      | none => rw [hold] at hmem; simp at hmem
      | some l0 =>
        rw [hold] at hmem
        exact hwf _ l0 hold e1 (by simpa using hmem)
    · have : e1 = e := by simpa using hmem
      subst this; rfl
  · rw [show placeEntry bs cap e =
        List.set bs (int_hash e.key % cap)
          (some ((List.getD bs (int_hash e.key % cap) none).getD [] ++ [e])) from rfl] at hl
    rw [getD_set_ne _ _ _ _ hb] at hl
    exact hwf b l hl e1 he1

lemma sum_lengths_set (bs : Buckets) (b : Nat) (x : Option (List int_to_int_entry))
    (h : b < bs.length) :
    ((bs.set b x).map (fun o => (o.getD []).length)).sum +
        ((List.getD bs b none).getD []).length =
      (bs.map (fun o => (o.getD []).length)).sum + (x.getD []).length := by
  induction bs generalizing b with
  | nil => simp at h
  | cons o rest ih =>
    cases b with
    | zero =>
      simp only [List.set, List.map_cons, List.sum_cons, List.getD_cons_zero]
      omega
    | succ n =>
      simp only [List.set, List.map_cons, List.sum_cons, List.getD_cons_succ]
      have := ih n (by simpa using h)
      omega

/-- Sum of present-bucket entry counts of a raw bucket array. -/
def sumCounts (bs : Buckets) : Nat :=
  (bs.map (fun o => (o.getD []).length)).sum

lemma sumCounts_placeEntry (bs : Buckets) (cap : Nat) (e : int_to_int_entry)
    (hlen : bs.length = cap) (hcap : 0 < cap) :
    sumCounts (placeEntry bs cap e) = sumCounts bs + 1 := by
  have hbe : int_hash e.key % cap < bs.length := by
    rw [hlen]; exact Nat.mod_lt _ hcap
  have := sum_lengths_set bs (int_hash e.key % cap)
    (some ((List.getD bs (int_hash e.key % cap) none).getD [] ++ [e])) hbe
  unfold sumCounts placeEntry
  simp only [Option.getD_some, List.length_append, List.length_singleton] at this ⊢
  omega

/-! ## Lemmas about the fold that re-places a list of entries -/

lemma length_foldl_placeEntry (es : List int_to_int_entry) (cap : Nat) (bs : Buckets) :
    (es.foldl (fun acc e => placeEntry acc cap e) bs).length = bs.length := by
  induction es generalizing bs with
  | nil => rfl
  | cons e rest ih => rw [List.foldl_cons, ih, length_placeEntry]

lemma lookupB_foldl_placeEntry (es : List int_to_int_entry) (cap : Nat) (bs : Buckets)
    (k : Int) (hlen : bs.length = cap) (hcap : 0 < cap) :
    lookupB (es.foldl (fun acc e => placeEntry acc cap e) bs) cap k =
      (lookupB bs cap k).or (bucket_find es k) := by
  induction es generalizing bs with
  | nil => simp [bucket_find]
  | cons e rest ih =>
    rw [List.foldl_cons]
    rw [ih (placeEntry bs cap e) (by rw [length_placeEntry, hlen])]
    rw [lookupB_placeEntry bs cap e k hlen hcap, Option.or_assoc]
    congr 1
    show (if int_equals k e.key then some e.value else none).or (bucket_find rest k) =
      bucket_find (e :: rest) k
    by_cases h : int_equals k e.key
    · simp [bucket_find, h]
    · simp [bucket_find, h]

lemma WfB_foldl_placeEntry (es : List int_to_int_entry) (cap : Nat) (bs : Buckets)
    (hwf : WfB bs cap) (hlen : bs.length = cap) (hcap : 0 < cap) :
    WfB (es.foldl (fun acc e => placeEntry acc cap e) bs) cap := by
  induction es generalizing bs with
  | nil => exact hwf
  | cons e rest ih =>
    rw [List.foldl_cons]
    exact ih (placeEntry bs cap e) (WfB_placeEntry e hwf hlen hcap)
      (by rw [length_placeEntry, hlen])

lemma sumCounts_foldl_placeEntry (es : List int_to_int_entry) (cap : Nat) (bs : Buckets)
    (hlen : bs.length = cap) (hcap : 0 < cap) :
    sumCounts (es.foldl (fun acc e => placeEntry acc cap e) bs) =
      sumCounts bs + es.length := by
  induction es generalizing bs with
  | nil => rfl
  | cons e rest ih =>
    rw [List.foldl_cons]
    rw [ih (placeEntry bs cap e) (by rw [length_placeEntry, hlen])]
    rw [sumCounts_placeEntry bs cap e hlen hcap]
    simp only [List.length_cons]
    omega

lemma WfB_replicate (n cap : Nat) :
    WfB (List.replicate n (none : Option (List int_to_int_entry))) cap := by
  intro b l hl
  rw [getD_replicate] at hl
  cases hl

lemma lookupB_replicate (n cap : Nat) (k : Int) :
    lookupB (List.replicate n (none : Option (List int_to_int_entry))) cap k = none := by
  unfold lookupB
  rw [getD_replicate]

lemma sumCounts_replicate (n : Nat) :
    sumCounts (List.replicate n (none : Option (List int_to_int_entry))) = 0 := by
  unfold sumCounts
  induction n with
  | zero => rfl
  | succ n ih => simp [List.replicate_succ, ih]

/-! ## Matches are confined to the key's own bucket -/

lemma bucket_find_flat_none (l : Buckets) (k : Int)
    (h : ∀ o ∈ l, ∀ e ∈ o.getD ([] : List int_to_int_entry), int_equals k e.key = false) :
    bucket_find (l.flatMap (fun o => o.getD [])) k = none := by
  apply bucket_find_eq_none
  intro e he
  obtain ⟨o, ho, heo⟩ := List.mem_flatMap.mp he
  exact h o ho e heo

/-- Under the placement invariant, scanning all entries in bucket order finds
exactly what scanning the key's own bucket finds: entries whose key equals the
query key can only live in the bucket the query key hashes to. -/
lemma bucket_find_flat_eq_lookupB (bs : Buckets) (cap : Nat) (k : Int)
    (hwf : WfB bs cap) (hlen : bs.length = cap) (hcap : 0 < cap) :
    bucket_find (bs.flatMap (fun o => o.getD [])) k = lookupB bs cap k := by
  set bk := int_hash k % cap with hbk_def
  have hbk : bk < bs.length := by
    rw [hlen]; exact Nat.mod_lt _ hcap
  have hmatch : ∀ i, ∀ hi : i < bs.length, ∀ e ∈ (bs[i]).getD [],
      int_equals k e.key = true → i = bk := by
    intro i hi e he hkey
    have hgd : List.getD bs i none = bs[i] := by
      rw [getD_eq_getElem?, List.getElem?_eq_getElem hi]
      rfl
    cases hoi : (bs[i] : Option (List int_to_int_entry)) with
    | none => rw [hoi] at he; simp at he
    | some l0 =>
      rw [hoi] at he
      have := hwf i l0 (by rw [hgd, hoi]) e (by simpa using he)
      rw [← this, hbk_def, int_hash_congr hkey]
  have hsplit : bs = bs.take bk ++ (bs[bk]) :: bs.drop (bk + 1) := by
    conv_lhs => rw [← List.take_append_drop bk bs]
    rw [List.drop_eq_getElem_cons hbk]
  have htake : bucket_find ((bs.take bk).flatMap (fun o => o.getD [])) k = none := by
    apply bucket_find_flat_none
    intro o ho e heo
    obtain ⟨i, hilt, hieq⟩ := List.getElem_of_mem ho
    have hi2 : i < bs.length := by
      have := hilt; simp only [List.length_take] at this; omega
    have hio : bs[i] = o := by
      rw [← hieq, List.getElem_take]
    by_contra hc
    have hkey : int_equals k e.key = true := by
      revert hc; cases int_equals k e.key <;> simp
    have hibk := hmatch i hi2 e (by rw [hio]; exact heo) hkey
    have : i < bk := by
      have := hilt; simp only [List.length_take] at this; omega
    omega
  have hdrop : bucket_find ((bs.drop (bk + 1)).flatMap (fun o => o.getD [])) k = none := by
    apply bucket_find_flat_none
    intro o ho e heo
    obtain ⟨i, hilt, hieq⟩ := List.getElem_of_mem ho
    have hi2 : bk + 1 + i < bs.length := by
      have := hilt; simp only [List.length_drop] at this; omega
    have hio : bs[bk + 1 + i] = o := by
      rw [← hieq, List.getElem_drop]
    by_contra hc
    have hkey : int_equals k e.key = true := by
      revert hc; cases int_equals k e.key <;> simp
    have hibk := hmatch (bk + 1 + i) hi2 e (by rw [hio]; exact heo) hkey
    omega
  conv_lhs => rw [hsplit]
  rw [List.flatMap_append, List.flatMap_cons, bucket_find_append, htake, Option.none_or,
    bucket_find_append, hdrop, Option.or_none]
  rw [lookupB_eq_bucket_find_getD]
  congr 1
  rw [getD_eq_getElem?, List.getElem?_eq_getElem hbk]
  rfl

/-! ## Lemmas about `hashmap_resize`, `add`, and `addAll` -/

/-- The invariant carried through all reachable states: structural
well-formedness plus correct placement of every entry. -/
def MapInv (m : int_to_int_hashmap) : Prop :=
  wfStruct m ∧ WfB m.buckets m.capacity

lemma sumCounts_eq_length_flat (bs : Buckets) :
    sumCounts bs = (bs.flatMap (fun o => o.getD [])).length := by
  induction bs with
  | nil => rfl
  | cons o rest ih =>
    simp only [sumCounts, List.map_cons, List.sum_cons, List.flatMap_cons, List.length_append]
    rw [← ih]
    rfl

lemma totalEntries_eq_sumCounts (m : int_to_int_hashmap) :
    totalEntries m = sumCounts m.buckets := rfl

lemma MapInv_new (cap : Nat) (h : 0 < cap) : MapInv (new_int_to_int_hashmap cap) := by
  refine ⟨⟨h, ?_⟩, ?_⟩
  · simp [new_int_to_int_hashmap]
  · exact WfB_replicate cap cap

lemma wfStruct_resize {m : int_to_int_hashmap} (h : wfStruct m) :
    wfStruct (hashmap_resize m) := by
  constructor
  · show 0 < 2 * m.capacity
    exact Nat.mul_pos two_pos h.1
  · show (hashmap_resize m).buckets.length = 2 * m.capacity
    unfold hashmap_resize
    rw [length_foldl_placeEntry, List.length_replicate]

lemma WfB_resize {m : int_to_int_hashmap} (h : wfStruct m) :
    WfB (hashmap_resize m).buckets (hashmap_resize m).capacity := by
  show WfB _ (2 * m.capacity)
  exact WfB_foldl_placeEntry _ _ _ (WfB_replicate _ _) (List.length_replicate _ _)
    (Nat.mul_pos two_pos h.1)

lemma MapInv_resize {m : int_to_int_hashmap} (h : MapInv m) : MapInv (hashmap_resize m) :=
  ⟨wfStruct_resize h.1, WfB_resize h.1⟩

lemma lookupB_resize {m : int_to_int_hashmap} (h : MapInv m) (k : Int) :
    lookupB (hashmap_resize m).buckets (hashmap_resize m).capacity k =
      lookupB m.buckets m.capacity k := by
  obtain ⟨⟨hcap, hlen⟩, hwf⟩ := h
  show lookupB ((allEntries m).foldl (fun bs e => placeEntry bs (2 * m.capacity) e)
    (List.replicate (2 * m.capacity) none)) (2 * m.capacity) k = _
  rw [lookupB_foldl_placeEntry _ _ _ _ (List.length_replicate _ _) (Nat.mul_pos two_pos hcap)]
  rw [lookupB_replicate, Option.none_or]
  exact bucket_find_flat_eq_lookupB m.buckets m.capacity k hwf hlen hcap

lemma sumCounts_resize {m : int_to_int_hashmap} (h : wfStruct m) :
    sumCounts (hashmap_resize m).buckets = sumCounts m.buckets := by
  show sumCounts ((allEntries m).foldl (fun bs e => placeEntry bs (2 * m.capacity) e)
    (List.replicate (2 * m.capacity) none)) = _
  rw [sumCounts_foldl_placeEntry _ _ _ (List.length_replicate _ _) (Nat.mul_pos two_pos h.1)]
  rw [sumCounts_replicate, Nat.zero_add]
  rw [sumCounts_eq_length_flat]
  rfl

lemma size_add (m : int_to_int_hashmap) (key value : Int) :
    (add_int_to_int_hashmap m key value).size = (m.size + 1) % U32 := by
  by_cases h : 4 * m.size > 3 * m.capacity <;>
    simp [add_int_to_int_hashmap, h, hashmap_resize]

lemma capacity_add_no_growth {m : int_to_int_hashmap} (key value : Int)
    (h : ¬ 4 * m.size > 3 * m.capacity) :
    (add_int_to_int_hashmap m key value).capacity = m.capacity := by
  simp [add_int_to_int_hashmap, h]

lemma buckets_add_no_growth {m : int_to_int_hashmap} (key value : Int)
    (h : ¬ 4 * m.size > 3 * m.capacity) :
    (add_int_to_int_hashmap m key value).buckets =
      placeEntry m.buckets m.capacity { key := key, value := value } := by
  simp [add_int_to_int_hashmap, h, copy_int]

lemma capacity_add_growth {m : int_to_int_hashmap} (key value : Int)
    (h : 4 * m.size > 3 * m.capacity) :
    (add_int_to_int_hashmap m key value).capacity = 2 * m.capacity := by
  simp [add_int_to_int_hashmap, h, hashmap_resize]

lemma buckets_add_growth {m : int_to_int_hashmap} (key value : Int)
    (h : 4 * m.size > 3 * m.capacity) :
    (add_int_to_int_hashmap m key value).buckets =
      placeEntry (hashmap_resize m).buckets (hashmap_resize m).capacity
        { key := key, value := value } := by
  simp [add_int_to_int_hashmap, h, copy_int]

lemma wfStruct_add {m : int_to_int_hashmap} (key value : Int) (h : wfStruct m) :
    wfStruct (add_int_to_int_hashmap m key value) := by
  by_cases hg : 4 * m.size > 3 * m.capacity
  · have h2 := wfStruct_resize h
    constructor
    · rw [capacity_add_growth key value hg]
      exact Nat.mul_pos two_pos h.1
    · rw [buckets_add_growth key value hg, capacity_add_growth key value hg,
        length_placeEntry]
      exact h2.2
  · constructor
    · rw [capacity_add_no_growth key value hg]
      exact h.1
    · rw [buckets_add_no_growth key value hg, capacity_add_no_growth key value hg,
        length_placeEntry]
      exact h.2

lemma WfB_add {m : int_to_int_hashmap} (key value : Int) (h : MapInv m) :
    WfB (add_int_to_int_hashmap m key value).buckets
      (add_int_to_int_hashmap m key value).capacity := by
  by_cases hg : 4 * m.size > 3 * m.capacity
  · rw [buckets_add_growth key value hg, capacity_add_growth key value hg]
    have h2 := MapInv_resize h
    exact WfB_placeEntry ({ key := key, value := value }) h2.2 h2.1.2 h2.1.1
  · rw [buckets_add_no_growth key value hg, capacity_add_no_growth key value hg]
    exact WfB_placeEntry _ h.2 h.1.2 h.1.1

lemma MapInv_add {m : int_to_int_hashmap} (key value : Int) (h : MapInv m) :
    MapInv (add_int_to_int_hashmap m key value) :=
  ⟨wfStruct_add key value h.1, WfB_add key value h⟩

lemma sumCounts_add {m : int_to_int_hashmap} (key value : Int) (h : wfStruct m) :
    sumCounts (add_int_to_int_hashmap m key value).buckets = sumCounts m.buckets + 1 := by
  by_cases hg : 4 * m.size > 3 * m.capacity
  · have h2 := wfStruct_resize h
    rw [buckets_add_growth key value hg]
    rw [sumCounts_placeEntry _ _ _ h2.2 h2.1, sumCounts_resize h]
  · rw [buckets_add_no_growth key value hg]
    rw [sumCounts_placeEntry _ _ _ h.2 h.1]

lemma lookupB_add {m : int_to_int_hashmap} (key value k : Int) (h : MapInv m) :
    lookupB (add_int_to_int_hashmap m key value).buckets
        (add_int_to_int_hashmap m key value).capacity k =
      (lookupB m.buckets m.capacity k).or
        (if int_equals k key then some value else none) := by
  by_cases hg : 4 * m.size > 3 * m.capacity
  · rw [buckets_add_growth key value hg, capacity_add_growth key value hg]
    have h2 := MapInv_resize h
    have hstep := lookupB_placeEntry (hashmap_resize m).buckets (2 * m.capacity)
      ({ key := key, value := value }) k h2.1.2 h2.1.1
    rw [show placeEntry (hashmap_resize m).buckets (hashmap_resize m).capacity
        { key := key, value := value } =
      placeEntry (hashmap_resize m).buckets (2 * m.capacity)
        { key := key, value := value } from rfl, hstep]
    rw [show lookupB (hashmap_resize m).buckets (2 * m.capacity) k =
      lookupB (hashmap_resize m).buckets (hashmap_resize m).capacity k from rfl]
    rw [lookupB_resize h k]
  · rw [buckets_add_no_growth key value hg, capacity_add_no_growth key value hg]
    exact lookupB_placeEntry _ _ _ _ h.1.2 h.1.1

/-! ## Lemmas about `addAll` -/

lemma addAll_nil (m : int_to_int_hashmap) : addAll m [] = m := rfl

lemma addAll_cons (m : int_to_int_hashmap) (p : Int × Int) (ps : List (Int × Int)) :
    addAll m (p :: ps) = addAll (add_int_to_int_hashmap m p.1 p.2) ps := rfl

lemma MapInv_addAll {m : int_to_int_hashmap} (ps : List (Int × Int)) (h : MapInv m) :
    MapInv (addAll m ps) := by
  induction ps generalizing m with
  | nil => exact h
  | cons p rest ih => rw [addAll_cons]; exact ih (MapInv_add p.1 p.2 h)

lemma size_addAll {m : int_to_int_hashmap} (ps : List (Int × Int)) (h : m.size < U32) :
    (addAll m ps).size = (m.size + ps.length) % U32 := by
  induction ps generalizing m with
  | nil =>
    rw [addAll_nil, List.length_nil, Nat.add_zero, Nat.mod_eq_of_lt h]
  | cons p rest ih =>
    rw [addAll_cons]
    have h1 : (add_int_to_int_hashmap m p.1 p.2).size < U32 := by
      rw [size_add]
      exact Nat.mod_lt _ (by decide)
    rw [ih h1, size_add, Nat.mod_add_mod, List.length_cons]
    congr 1
    omega

lemma sumCounts_addAll {m : int_to_int_hashmap} (ps : List (Int × Int)) (h : wfStruct m) :
    sumCounts (addAll m ps).buckets = sumCounts m.buckets + ps.length := by
  induction ps generalizing m with
  | nil => rw [addAll_nil, List.length_nil, Nat.add_zero]
  | cons p rest ih =>
    rw [addAll_cons, ih (wfStruct_add p.1 p.2 h), sumCounts_add p.1 p.2 h,
      List.length_cons]
    omega

lemma firstVal_cons (p : Int × Int) (ps : List (Int × Int)) (k : Int) :
    firstVal (p :: ps) k =
      (if int_equals k p.1 then some p.2 else none).or (firstVal ps k) := by
  unfold firstVal
  rw [List.find?_cons]
  by_cases h : int_equals k p.1
  · simp [h]
  · simp [h]

lemma lookupB_addAll {m : int_to_int_hashmap} (ps : List (Int × Int)) (k : Int)
    (h : MapInv m) :
    lookupB (addAll m ps).buckets (addAll m ps).capacity k =
      (lookupB m.buckets m.capacity k).or (firstVal ps k) := by
  induction ps generalizing m with
  | nil => simp [addAll_nil, firstVal]
  | cons p rest ih =>
    rw [addAll_cons, ih (MapInv_add p.1 p.2 h), lookupB_add p.1 p.2 k h,
      Option.or_assoc, firstVal_cons]

lemma size_new (cap : Nat) : (new_int_to_int_hashmap cap).size = 0 := rfl

lemma lookupB_new (cap : Nat) (k : Int) :
    lookupB (new_int_to_int_hashmap cap).buckets (new_int_to_int_hashmap cap).capacity k =
      none :=
  lookupB_replicate cap cap k

/-- Master lookup lemma: after any sequence of `add` calls on a fresh table,
what `get` finds for a key is exactly the value of the first `add` whose key
equals it — first-inserted wins. -/
lemma lookupB_addAll_new (cap : Nat) (ps : List (Int × Int)) (k : Int) (hcap : 0 < cap) :
    lookupB (addAll (new_int_to_int_hashmap cap) ps).buckets
        (addAll (new_int_to_int_hashmap cap) ps).capacity k = firstVal ps k := by
  rw [lookupB_addAll ps k (MapInv_new cap hcap), lookupB_new, Option.none_or]

/-! ## Bridging `get` to `lookupB` -/

lemma get_eq_of_lookupB_some {m : int_to_int_hashmap} {k v : Int} (out : Int)
    (h : lookupB m.buckets m.capacity k = some v) :
    get_int_to_int_hashmap m k out = (m, true, v) := by
  unfold get_int_to_int_hashmap
  unfold lookupB at h
  cases hb : List.getD m.buckets (int_hash k % m.capacity) none with
  | none => rw [hb] at h; cases h
  | some l =>
    rw [hb] at h
    have h2 : bucket_find l k = some v := h
    show (match bucket_find l k with
      | some v => (m, true, v)
      | none => (m, false, out)) = (m, true, v)
    rw [h2]

lemma get_eq_of_lookupB_none {m : int_to_int_hashmap} {k : Int} (out : Int)
    (h : lookupB m.buckets m.capacity k = none) :
    get_int_to_int_hashmap m k out = (m, false, out) := by
  unfold get_int_to_int_hashmap
  unfold lookupB at h
  cases hb : List.getD m.buckets (int_hash k % m.capacity) none with
  | none => simp
  | some l =>
    rw [hb] at h
    have h2 : bucket_find l k = none := h
    show (match bucket_find l k with
      | some v => (m, true, v)
      | none => (m, false, out)) = (m, false, out)
    rw [h2]

lemma getD_placeEntry_self (bs : Buckets) (cap : Nat) (e : int_to_int_entry)
    (hlen : bs.length = cap) (hcap : 0 < cap) :
    List.getD (placeEntry bs cap e) (int_hash e.key % cap) none =
      some ((List.getD bs (int_hash e.key % cap) none).getD [] ++ [e]) := by
  unfold placeEntry
  exact getD_set_self _ _ _ (by rw [hlen]; exact Nat.mod_lt _ hcap)

lemma get_preserves_table (m : int_to_int_hashmap) (k out : Int) :
    (get_int_to_int_hashmap m k out).1 = m := by
  unfold get_int_to_int_hashmap
  cases List.getD m.buckets (int_hash k % m.capacity) none with
  | none => rfl
  | some l =>
    show (match bucket_find l k with
      | some v => (m, true, v)
      | none => (m, false, out)).1 = m
    cases bucket_find l k with
    | none => rfl
    | some v => rfl

/-! ## The claims -/

/-- C1 (code bug, evaluated at the failing input): after `add(1, 10)` on a
fresh table, `delete_int_to_int_hashmap` emits zero `destroy` invocations for
the stored key `1` and zero for the stored value `10` — the claim (and the
spec's "exactly once" teardown contract) requires one of each. The generated
per-entry teardown `delete_int_to_int_entry` exists and would emit exactly
those two events, but `delete_int_to_int_hashmap` never calls it: it only
destroys the bucket vectors and frees the arrays (the `TODO` in `hashmap.h`
acknowledges that entry contents are not deleted). -/
theorem claim_C1_delete_invokes_no_entry_destroy :
    (delete_int_to_int_hashmap_events
        (add_int_to_int_hashmap (new_int_to_int_hashmap 127) 1 10)).count
        (teardown_event.destroyKey 1) = 0 ∧
    (delete_int_to_int_hashmap_events
        (add_int_to_int_hashmap (new_int_to_int_hashmap 127) 1 10)).count
        (teardown_event.destroyValue 10) = 0 ∧
    delete_int_to_int_entry_events { key := 1, value := 10 } =
      [teardown_event.destroyKey 1, teardown_event.destroyValue 10] := by
  refine ⟨by decide, by decide, rfl⟩

/-- C2 (counterexample): with `initial_capacity = 4` and three entries stored
(threshold `capacity * LOAD_FACTOR = 3`), the `add` inserting the 4th distinct
key does *not* perform a growth rehash: the source condition
`size > capacity * LOAD_FACTOR` is strict (`3 > 3` is false), so capacity
stays `4` — the claim says this very `add` grows the table. -/
theorem claim_C2_counterexample :
    (addAll (new_int_to_int_hashmap 4) [(1, 10), (2, 20), (3, 30)]).size = 3 ∧
    (addAll (new_int_to_int_hashmap 4) [(1, 10), (2, 20), (3, 30)]).capacity = 4 ∧
    ¬ (4 * (addAll (new_int_to_int_hashmap 4) [(1, 10), (2, 20), (3, 30)]).size >
        3 * (addAll (new_int_to_int_hashmap 4) [(1, 10), (2, 20), (3, 30)]).capacity) ∧
    (add_int_to_int_hashmap (addAll (new_int_to_int_hashmap 4) [(1, 10), (2, 20), (3, 30)])
        4 40).capacity = 4 := by
  refine ⟨by decide, by decide, by decide, by decide⟩

/-- C2 (amended): with `LOAD_FACTOR = 0.75` and `initial_capacity = 4`, the
`add` of the 4th distinct key leaves the capacity at `4` (the strict threshold
`size > 3` does not fire at `size = 3`) and all 4 keys are retrievable; the
single growth rehash happens inside the `add` of the 5th distinct key
(`size = 4 > 3`), after which the capacity has increased (to `8`) and all 5
keys are retrievable via `get`. -/
theorem claim_C2_growth_on_fifth_insert :
    (addAll (new_int_to_int_hashmap 4) [(1, 10), (2, 20), (3, 30), (4, 40)]).capacity = 4 ∧
    (get_int_to_int_hashmap (addAll (new_int_to_int_hashmap 4)
        [(1, 10), (2, 20), (3, 30), (4, 40)]) 1 0).2 = (true, 10) ∧
    (get_int_to_int_hashmap (addAll (new_int_to_int_hashmap 4)
        [(1, 10), (2, 20), (3, 30), (4, 40)]) 2 0).2 = (true, 20) ∧
    (get_int_to_int_hashmap (addAll (new_int_to_int_hashmap 4)
        [(1, 10), (2, 20), (3, 30), (4, 40)]) 3 0).2 = (true, 30) ∧
    (get_int_to_int_hashmap (addAll (new_int_to_int_hashmap 4)
        [(1, 10), (2, 20), (3, 30), (4, 40)]) 4 0).2 = (true, 40) ∧
    (addAll (new_int_to_int_hashmap 4)
        [(1, 10), (2, 20), (3, 30), (4, 40), (5, 50)]).capacity = 8 ∧
    (get_int_to_int_hashmap (addAll (new_int_to_int_hashmap 4)
        [(1, 10), (2, 20), (3, 30), (4, 40), (5, 50)]) 1 0).2 = (true, 10) ∧
    (get_int_to_int_hashmap (addAll (new_int_to_int_hashmap 4)
        [(1, 10), (2, 20), (3, 30), (4, 40), (5, 50)]) 2 0).2 = (true, 20) ∧
    (get_int_to_int_hashmap (addAll (new_int_to_int_hashmap 4)
        [(1, 10), (2, 20), (3, 30), (4, 40), (5, 50)]) 3 0).2 = (true, 30) ∧
    (get_int_to_int_hashmap (addAll (new_int_to_int_hashmap 4)
        [(1, 10), (2, 20), (3, 30), (4, 40), (5, 50)]) 4 0).2 = (true, 40) ∧
    (get_int_to_int_hashmap (addAll (new_int_to_int_hashmap 4)
        [(1, 10), (2, 20), (3, 30), (4, 40), (5, 50)]) 5 0).2 = (true, 50) := by
  refine ⟨by decide, by decide, by decide, by decide, by decide, by decide, by decide,
    by decide, by decide, by decide, by decide⟩

/-- C3 (confirmed, concrete scenario C with `int` values standing in for the
strings: `10` for `"x"`, `20` for `"y"`): after `add(1, 10)` then `add(1, 20)`
on a fresh default-capacity table, `size = 2`, both entries coexist in key 1's
bucket in insertion order (neither replaced the other), and `get(1)` returns
`(true, 10)` — the first-inserted value wins. -/
theorem claim_C3_duplicate_keys_coexist :
    (addAll (new_int_to_int_hashmap 127) [(1, 10), (1, 20)]).size = 2 ∧
    List.getD (addAll (new_int_to_int_hashmap 127) [(1, 10), (1, 20)]).buckets
        (int_hash 1 % 127) none =
      some [{ key := 1, value := 10 }, { key := 1, value := 20 }] ∧
    get_int_to_int_hashmap (addAll (new_int_to_int_hashmap 127) [(1, 10), (1, 20)]) 1 0 =
      (addAll (new_int_to_int_hashmap 127) [(1, 10), (1, 20)], true, 10) := by
  refine ⟨by decide, by decide, by decide⟩

/-- C10 (confirmed): `get` never modifies the table — the table component of
the result is the input table unchanged (size, capacity, and every bucket) —
and the caller's output location is written only when `get` returns `true`:
when the result flag is `false`, the output location still holds its prior
contents. -/
theorem claim_C10_get_is_pure (m : int_to_int_hashmap) (k out : Int) :
    (get_int_to_int_hashmap m k out).1 = m ∧
    ((get_int_to_int_hashmap m k out).2.1 = false →
      (get_int_to_int_hashmap m k out).2.2 = out) := by
  refine ⟨get_preserves_table m k out, ?_⟩
  unfold get_int_to_int_hashmap
  cases List.getD m.buckets (int_hash k % m.capacity) none with
  | none => intro _; rfl
  | some l =>
    show (match bucket_find l k with
        | some v => (m, true, v)
        | none => (m, false, out)).2.1 = false →
      (match bucket_find l k with
        | some v => (m, true, v)
        | none => (m, false, out)).2.2 = out
    cases bucket_find l k with
    | none => intro _; rfl
    | some v =>
      intro h
      simp at h

/-- Witness for C10 at a concrete input on which `get` returns `false`: the
table is returned unchanged and the output location keeps its prior value `7`. -/
theorem claim_C10_get_is_pure_witness :
    (get_int_to_int_hashmap (new_int_to_int_hashmap 4) 9 7).1 = new_int_to_int_hashmap 4 ∧
    (get_int_to_int_hashmap (new_int_to_int_hashmap 4) 9 7).2.2 = 7 :=
  ⟨(claim_C10_get_is_pure (new_int_to_int_hashmap 4) 9 7).1,
   (claim_C10_get_is_pure (new_int_to_int_hashmap 4) 9 7).2 (by decide)⟩

/-- C4 (confirmed): an `add` call performs the growth rehash if and only if, at
the start of the call, `size > capacity * LOAD_FACTOR` (embedded exactly as
`4 * size > 3 * capacity`): when the condition holds the capacity becomes the
rehashed capacity `2 * capacity` (strictly larger); otherwise the capacity is
left unchanged. In both cases the new entry is recorded last in the bucket its
key hashes to modulo the capacity that holds *after* any rehash — the rehash
happens before the new entry is stored. -/
theorem claim_C4_growth_iff_threshold (m : int_to_int_hashmap) (key value : Int)
    (h : wfStruct m) :
    (4 * m.size > 3 * m.capacity →
      (add_int_to_int_hashmap m key value).capacity = 2 * m.capacity ∧
      m.capacity < (add_int_to_int_hashmap m key value).capacity) ∧
    (¬ 4 * m.size > 3 * m.capacity →
      (add_int_to_int_hashmap m key value).capacity = m.capacity) ∧
    ((List.getD (add_int_to_int_hashmap m key value).buckets
        (int_hash key % (add_int_to_int_hashmap m key value).capacity) none).getD
        []).getLast? = some { key := key, value := value } := by
  refine ⟨?_, ?_, ?_⟩
  · intro hg
    rw [capacity_add_growth key value hg]
    refine ⟨rfl, ?_⟩
    have hc := h.1
    omega
  · intro hg
    exact capacity_add_no_growth key value hg
  · by_cases hg : 4 * m.size > 3 * m.capacity
    · have h2 := wfStruct_resize h
      rw [buckets_add_growth key value hg, capacity_add_growth key value hg]
      have hp := getD_placeEntry_self (hashmap_resize m).buckets (2 * m.capacity)
        ({ key := key, value := value } : int_to_int_entry) h2.2
        (Nat.mul_pos two_pos h.1)
      show ((List.getD (placeEntry (hashmap_resize m).buckets (2 * m.capacity)
          ({ key := key, value := value } : int_to_int_entry))
          (int_hash ({ key := key, value := value } : int_to_int_entry).key %
            (2 * m.capacity)) none).getD []).getLast? =
        some { key := key, value := value }
      rw [hp, Option.getD_some, List.getLast?_concat]
    · rw [buckets_add_no_growth key value hg, capacity_add_no_growth key value hg]
      have hp := getD_placeEntry_self m.buckets m.capacity
        ({ key := key, value := value } : int_to_int_entry) h.2 h.1
      show ((List.getD (placeEntry m.buckets m.capacity
          ({ key := key, value := value } : int_to_int_entry))
          (int_hash ({ key := key, value := value } : int_to_int_entry).key %
            m.capacity) none).getD []).getLast? =
        some { key := key, value := value }
      rw [hp, Option.getD_some, List.getLast?_concat]

/-- Witness for C4 at a concrete table with `size = 4`, `capacity = 4`: the
growth branch fires (`16 > 12`), the capacity doubles to `8`, and the new
entry `(5, 50)` is recorded last in the bucket selected by the new capacity. -/
theorem claim_C4_growth_iff_threshold_witness :
    (add_int_to_int_hashmap (addAll (new_int_to_int_hashmap 4)
        [(1, 10), (2, 20), (3, 30), (4, 40)]) 5 50).capacity =
      2 * (addAll (new_int_to_int_hashmap 4) [(1, 10), (2, 20), (3, 30), (4, 40)]).capacity ∧
    ((List.getD (add_int_to_int_hashmap (addAll (new_int_to_int_hashmap 4)
          [(1, 10), (2, 20), (3, 30), (4, 40)]) 5 50).buckets
        (int_hash 5 % (add_int_to_int_hashmap (addAll (new_int_to_int_hashmap 4)
          [(1, 10), (2, 20), (3, 30), (4, 40)]) 5 50).capacity) none).getD
        []).getLast? = some { key := 5, value := 50 } :=
  ⟨((claim_C4_growth_iff_threshold (addAll (new_int_to_int_hashmap 4)
      [(1, 10), (2, 20), (3, 30), (4, 40)]) 5 50 (by decide)).1 (by decide)).1,
   (claim_C4_growth_iff_threshold (addAll (new_int_to_int_hashmap 4)
      [(1, 10), (2, 20), (3, 30), (4, 40)]) 5 50 (by decide)).2.2⟩

/-- C5 (counterexample): the pair `(1, 20)` is inserted via `add` after
`(1, 10)`, and no duplicate of key `1` is inserted afterward — yet `get(1)`
returns `10`, not the inserted value `20`: under the first-inserted-wins
bucket-order policy a *later* duplicate is never the one shadowed, so the
claim's proviso ("no duplicate inserted afterward") does not rescue it. -/
theorem claim_C5_counterexample :
    get_int_to_int_hashmap (addAll (new_int_to_int_hashmap 127) [(1, 10), (1, 20)]) 1 0 =
      (addAll (new_int_to_int_hashmap 127) [(1, 10), (1, 20)], true, 10) ∧
    (10 : Int) ≠ 20 :=
  ⟨by decide, by decide⟩

/-- C5 (amended): for every key/value pair `(k, v)` inserted via `add` such
that no entry with a key equal to `k` (under `equals`) was inserted *before*
it, a subsequent `get(k)` returns `(true, v)` — and later duplicates of `k`
never shadow it.  (The original claim conditioned on "no duplicate inserted
afterward"; under the first-inserted-wins policy the shadowing duplicates are
exactly the earlier ones.) -/
theorem claim_C5_round_trip_first_insertion (cap : Nat) (l1 l2 : List (Int × Int))
    (k v out : Int) (hcap : 0 < cap)
    (hfirst : ∀ p ∈ l1, int_equals k p.1 = false) :
    get_int_to_int_hashmap (addAll (new_int_to_int_hashmap cap) (l1 ++ (k, v) :: l2))
        k out =
      (addAll (new_int_to_int_hashmap cap) (l1 ++ (k, v) :: l2), true, v) := by
  apply get_eq_of_lookupB_some
  rw [lookupB_addAll_new cap _ k hcap]
  unfold firstVal
  rw [List.find?_append]
  rw [List.find?_eq_none.mpr (fun p hp => by rw [hfirst p hp]; exact Bool.false_ne_true)]
  rw [Option.none_or, List.find?_cons]
  have hkk : int_equals k ((k, v) : Int × Int).1 = true := int_equals_refl k
  rw [hkk]
  rfl

/-- Witness for C5: with `(2, 99)` inserted before `(1, 10)` and a duplicate
`(1, 20)` inserted afterward, `get(1)` still returns `(true, 10)`. -/
theorem claim_C5_round_trip_first_insertion_witness :
    get_int_to_int_hashmap (addAll (new_int_to_int_hashmap 4)
        ([(2, 99)] ++ (1, 10) :: [(1, 20)])) 1 0 =
      (addAll (new_int_to_int_hashmap 4) ([(2, 99)] ++ (1, 10) :: [(1, 20)]), true, 10) :=
  claim_C5_round_trip_first_insertion 4 [(2, 99)] [(1, 20)] 1 10 0 (by decide)
    (by decide)

/-- C6 (confirmed): on any table built by any sequence of `add` calls none of
whose keys equals `k` (under `equals`), `get(k)` returns `false` and leaves
the table and the output location unchanged — absence is signalled by the
boolean result alone. This covers both not-found paths of the source: the
bucket `k` hashes to was never allocated (`NULL`), or it exists but its scan
finds no entry with an equal key. -/
theorem claim_C6_absent_key_returns_false (cap : Nat) (ps : List (Int × Int))
    (k out : Int) (hcap : 0 < cap)
    (habsent : ∀ p ∈ ps, int_equals k p.1 = false) :
    get_int_to_int_hashmap (addAll (new_int_to_int_hashmap cap) ps) k out =
      (addAll (new_int_to_int_hashmap cap) ps, false, out) := by
  apply get_eq_of_lookupB_none
  rw [lookupB_addAll_new cap ps k hcap]
  unfold firstVal
  rw [List.find?_eq_none.mpr (fun p hp => by rw [habsent p hp]; exact Bool.false_ne_true)]
  rfl

/-- Witness for C6, exercising both not-found paths on the scenario-A table
(`capacity 4`, keys 1, 2, 3): key `5` hashes to bucket `1`, which is present
but holds only key `1` (scan fails); key `4` hashes to bucket `0`, which was
never allocated (`NULL`). -/
theorem claim_C6_absent_key_returns_false_witness :
    get_int_to_int_hashmap (addAll (new_int_to_int_hashmap 4) [(1, 10), (2, 20), (3, 30)])
        5 0 =
      (addAll (new_int_to_int_hashmap 4) [(1, 10), (2, 20), (3, 30)], false, 0) ∧
    get_int_to_int_hashmap (addAll (new_int_to_int_hashmap 4) [(1, 10), (2, 20), (3, 30)])
        4 7 =
      (addAll (new_int_to_int_hashmap 4) [(1, 10), (2, 20), (3, 30)], false, 7) :=
  ⟨claim_C6_absent_key_returns_false 4 [(1, 10), (2, 20), (3, 30)] 5 0 (by decide)
      (by decide),
   claim_C6_absent_key_returns_false 4 [(1, 10), (2, 20), (3, 30)] 4 7 (by decide)
      (by decide)⟩

/-- C7 (counterexample): `size` is a 32-bit (`uint32_t`) counter, so after
`2^32` successful `add` calls on a fresh table it has wrapped to `0` and no
longer equals the number of `add` calls made, as the claim requires for
*every* sequence of adds. -/
theorem claim_C7_counterexample :
    (addAll (new_int_to_int_hashmap 127)
        (List.replicate 4294967296 ((0 : Int), (0 : Int)))).size = 0 ∧
    (List.replicate 4294967296 ((0 : Int), (0 : Int))).length = 4294967296 ∧
    (addAll (new_int_to_int_hashmap 127)
        (List.replicate 4294967296 ((0 : Int), (0 : Int)))).size ≠
      (List.replicate 4294967296 ((0 : Int), (0 : Int))).length := by
  have h1 : (addAll (new_int_to_int_hashmap 127)
      (List.replicate 4294967296 ((0 : Int), (0 : Int)))).size = 0 := by
    rw [size_addAll _ (by rw [size_new]; decide), size_new, List.length_replicate]
    decide
  refine ⟨h1, by rw [List.length_replicate], ?_⟩
  rw [h1, List.length_replicate]
  decide

/-- C7 (amended): every `add` call increments the 32-bit `size` field by
exactly one (also on duplicate keys and on adds that trigger growth), so after
`n` adds on a fresh table `size = n mod 2^32`; in particular `size = n`
whenever `n < 2^32`. -/
theorem claim_C7_size_counts_adds (cap : Nat) (ps : List (Int × Int)) :
    (addAll (new_int_to_int_hashmap cap) ps).size = ps.length % U32 ∧
    (ps.length < U32 → (addAll (new_int_to_int_hashmap cap) ps).size = ps.length) := by
  have h := @size_addAll (new_int_to_int_hashmap cap) ps (by rw [size_new]; decide)
  rw [size_new, Nat.zero_add] at h
  exact ⟨h, fun hlt => by rw [h, Nat.mod_eq_of_lt hlt]⟩

/-- Witness for C7 (amended) on a concrete run of three adds, one of them a
duplicate key: the size field is `3`. -/
theorem claim_C7_size_counts_adds_witness :
    (addAll (new_int_to_int_hashmap 4) [(1, 10), (1, 20), (2, 30)]).size = 3 :=
  (claim_C7_size_counts_adds 4 [(1, 10), (1, 20), (2, 30)]).2 (by decide)

/-- C8 (counterexample): after `2^32` adds the buckets hold `2^32` entries in
total but the 32-bit `size` field has wrapped to `0`, so `size` does not equal
the sum of the entry counts of the present buckets, as the claim requires at
every point. -/
theorem claim_C8_counterexample :
    totalEntries (addAll (new_int_to_int_hashmap 127)
        (List.replicate 4294967296 ((0 : Int), (0 : Int)))) = 4294967296 ∧
    (addAll (new_int_to_int_hashmap 127)
        (List.replicate 4294967296 ((0 : Int), (0 : Int)))).size = 0 ∧
    (addAll (new_int_to_int_hashmap 127)
        (List.replicate 4294967296 ((0 : Int), (0 : Int)))).size ≠
      totalEntries (addAll (new_int_to_int_hashmap 127)
        (List.replicate 4294967296 ((0 : Int), (0 : Int)))) := by
  have hwf : wfStruct (new_int_to_int_hashmap 127) :=
    (MapInv_new 127 (by norm_num)).1
  have ht : totalEntries (addAll (new_int_to_int_hashmap 127)
      (List.replicate 4294967296 ((0 : Int), (0 : Int)))) = 4294967296 := by
    rw [totalEntries_eq_sumCounts, sumCounts_addAll _ hwf]
    rw [show sumCounts (new_int_to_int_hashmap 127).buckets = 0 from
      sumCounts_replicate 127]
    rw [List.length_replicate]
  have hs : (addAll (new_int_to_int_hashmap 127)
      (List.replicate 4294967296 ((0 : Int), (0 : Int)))).size = 0 := by
    rw [size_addAll _ (by rw [size_new]; decide), size_new, List.length_replicate]
    decide
  refine ⟨ht, hs, ?_⟩
  rw [ht, hs]
  decide

/-- C8 (amended): after any sequence of `add` calls on a fresh table, the
32-bit `size` field equals the sum of the entry counts of all present buckets
taken modulo `2^32` — and equals the sum itself whenever the table holds fewer
than `2^32` entries. `get` does not change the table, so the invariant also
holds after any `get`. -/
theorem claim_C8_size_eq_sum_of_bucket_counts (cap : Nat) (ps : List (Int × Int))
    (hcap : 0 < cap) :
    (addAll (new_int_to_int_hashmap cap) ps).size =
      totalEntries (addAll (new_int_to_int_hashmap cap) ps) % U32 ∧
    (totalEntries (addAll (new_int_to_int_hashmap cap) ps) < U32 →
      (addAll (new_int_to_int_hashmap cap) ps).size =
        totalEntries (addAll (new_int_to_int_hashmap cap) ps)) ∧
    (∀ k out : Int,
      (get_int_to_int_hashmap (addAll (new_int_to_int_hashmap cap) ps) k out).1 =
        addAll (new_int_to_int_hashmap cap) ps) := by
  have hwf : wfStruct (new_int_to_int_hashmap cap) := (MapInv_new cap hcap).1
  have ht : totalEntries (addAll (new_int_to_int_hashmap cap) ps) = ps.length := by
    rw [totalEntries_eq_sumCounts, sumCounts_addAll ps hwf]
    rw [show sumCounts (new_int_to_int_hashmap cap).buckets = 0 from
      sumCounts_replicate cap]
    rw [Nat.zero_add]
  have hs := @size_addAll (new_int_to_int_hashmap cap) ps (by rw [size_new]; decide)
  rw [size_new, Nat.zero_add] at hs
  refine ⟨by rw [hs, ht], fun hlt => ?_, fun k out => get_preserves_table _ k out⟩
  rw [ht] at hlt ⊢
  rw [hs, Nat.mod_eq_of_lt hlt]

/-- Witness for C8 (amended) on a concrete table of three entries (with a
duplicate key and hash collisions): `size` equals the sum of the bucket entry
counts. -/
theorem claim_C8_size_eq_sum_of_bucket_counts_witness :
    (addAll (new_int_to_int_hashmap 4) [(1, 10), (1, 20), (5, 50)]).size =
      totalEntries (addAll (new_int_to_int_hashmap 4) [(1, 10), (1, 20), (5, 50)]) :=
  (claim_C8_size_eq_sum_of_bucket_counts 4 [(1, 10), (1, 20), (5, 50)]
    (by decide)).2.1 (by decide)

/-- C9 (confirmed): on any table built by any sequence of `add` calls from a
fresh table, every entry of every present bucket resides at the index obtained
by hashing its key and reducing modulo the *current* capacity — so the bucket
`get` scans for a key is exactly the bucket holding every entry with an equal
key. `get` itself leaves the table unchanged, so the invariant also holds
after any `get`. -/
theorem claim_C9_entries_reside_in_hash_bucket (cap : Nat) (ps : List (Int × Int))
    (hcap : 0 < cap) :
    (∀ b l, List.getD (addAll (new_int_to_int_hashmap cap) ps).buckets b none = some l →
      ∀ e ∈ l, int_hash e.key % (addAll (new_int_to_int_hashmap cap) ps).capacity = b) ∧
    (∀ k out : Int,
      (get_int_to_int_hashmap (addAll (new_int_to_int_hashmap cap) ps) k out).1 =
        addAll (new_int_to_int_hashmap cap) ps) := by
  refine ⟨?_, fun k out => get_preserves_table _ k out⟩
  exact (MapInv_addAll ps (MapInv_new cap hcap)).2

/-- Witness for C9: in the table built from `add(1, 10)`, `add(6, 60)` with
capacity `4`, the entry with key `6` resides in bucket `6 mod 4 = 2`. -/
theorem claim_C9_entries_reside_in_hash_bucket_witness :
    int_hash ({ key := 6, value := 60 } : int_to_int_entry).key %
      (addAll (new_int_to_int_hashmap 4) [(1, 10), (6, 60)]).capacity = 2 :=
  (claim_C9_entries_reside_in_hash_bucket 4 [(1, 10), (6, 60)] (by decide)).1 2
    [{ key := 6, value := 60 }] (by decide) { key := 6, value := 60 } (by decide)
